import Mathlib

/-!
# jrpc: the response envelope and the client call

A shallow embedding of `rpc.go` (package `rpc`).  The package is a thin layer
over `encoding/json`, `net/http`, `reflect` and `encoding/base64`; the parts of
those libraries that `rpc.go` drives are embedded next to it, on JSON trees
instead of bytes: a byte string is carried together with the tree the json
scanner reads from it (none when the bytes are not JSON).
-/

set_option exponentiation.threshold 2000

namespace rpc

/-! ## JSON trees -/

/-- A JSON number literal: written as a plain integer, or with a fraction or
exponent part, in which case it denotes `m * 10 ^ e`. -/
inductive JNum where
  | int (n : Int)
  | dec (m : Int) (e : Int)
  deriving DecidableEq, Repr

/-- A JSON value; an object keeps its members in the order they were written,
duplicates included. -/
inductive JSON where
  | null
  | bool (b : Bool)
  | num (n : JNum)
  | str (s : String)
  | arr (items : List JSON)
  | obj (members : List (String × JSON))
  deriving Repr

/-- A byte string as `encoding/json` sees it: its text and the JSON value it
spells, if it spells one. -/
structure Bytes where
  text : String
  tree : Option JSON

/-! ## Go values, types and errors -/

/-- The Go types a caller can describe a result with. A struct lists its fields
under the names `encoding/json` knows them by. -/
inductive Shape where
  | bool
  | int
  | float64
  | string
  | iface
  | slice (elem : Shape)
  | struct (fields : List (String × Shape))
  deriving Repr

/-- A Go string is a sequence of bytes: `text` is one whose bytes are valid
UTF-8, given by the text they spell; `raw` is one whose bytes are not, given by
its bytes. -/
inductive GoString where
  | text (s : String)
  | raw (bytes : List Nat)
  deriving DecidableEq, Repr

/-- Go values as far as `encoding/json` tells them apart. `nil` is the zero
value of an interface, pointer, slice or map type; `typedNil` is an interface
that holds a nil pointer, slice or map; `ptr` is a non-nil pointer together with
the type it points to; `chan` stands for the values `json.Marshal` rejects.
`str` and `map` are a string and a map whose keys are valid UTF-8; `rawStr` is
a string that is not valid UTF-8, and `rawMap` a map with such a key. -/
inductive GoVal where
  | nil
  | bool (b : Bool)
  | int (n : Int)
  | float64 (x : JNum)
  | str (s : String)
  | slice (items : List GoVal)
  | map (entries : List (String × GoVal))
  | struct (fields : List (String × GoVal))
  | ptr (elem : Shape) (target : GoVal)
  | chan
  | typedNil
  | rawStr (bytes : List Nat)
  | rawMap (entries : List (GoString × GoVal))
  deriving Repr

/-- Values of Go's `error` interface that a call can return. -/
inductive GoError where
  | syntaxError
  | unmarshalType (value : String) (goType : String)
  | unsupportedType
  | urlError (text : String)
  | transport (text : String)
  | readError (text : String)
  | errorf (text : String)
  deriving DecidableEq, Repr

/-- The text `err.Error()` gives. -/
def GoError.Error : GoError → String
  | .syntaxError => "invalid character looking for beginning of value"
  | .unmarshalType v t => "json: cannot unmarshal " ++ v ++ " into Go value of type " ++ t
  | .unsupportedType => "json: unsupported type"
  | .urlError t => t
  | .transport t => t
  | .readError t => t
  | .errorf t => t

/-- What running a method leaves behind: the state it reached and the error it
returned (none for a nil error), or a run-time panic. -/
inductive Run (σ : Type) where
  | done (state : σ) (err : Option GoError)
  | panic (msg : String)

/-! ## `encoding/json`: decoding -/

/-- Whether a literal is inside the range of `int` (64 bit): only a plain
integer literal is accepted by `strconv.ParseInt`. -/
def JNum.asInt64 : JNum → Option Int
  | .int n => if -(2 : Int) ^ 63 ≤ n ∧ n < (2 : Int) ^ 63 then some n else none
  | .dec _ _ => none

/-- The first magnitude that `strconv.ParseFloat` rounds to infinity. -/
def float64Limit : Nat := 2 ^ 1024 - 2 ^ 970

/-- Whether `strconv.ParseFloat(s, 64)` accepts the literal (no range error). -/
def JNum.fitsFloat64 : JNum → Bool
  | .int n => decide (n.natAbs < float64Limit)
  | .dec m e =>
    if 0 ≤ e then decide (m.natAbs * 10 ^ e.toNat < float64Limit)
    else decide (m.natAbs < float64Limit * 10 ^ (-e).toNat)

/-- Name of the JSON kind, as it appears in an `UnmarshalTypeError`. -/
def JSON.kind : JSON → String
  | .null => "null"
  | .bool _ => "bool"
  | .num _ => "number"
  | .str _ => "string"
  | .arr _ => "array"
  | .obj _ => "object"

/-- The earlier of two saved errors (`decodeState.saveError`). -/
def firstErr : Option GoError → Option GoError → Option GoError
  | some e, _ => some e
  | none, e => e

/-- Order of two strings by code points, first difference deciding. -/
def runesLess : List Char → List Char → Bool
  | _, [] => false
  | [], _ :: _ => true
  | c :: cs, d :: ds => decide (c.toNat < d.toNat) || (c == d && runesLess cs ds)

/-- The order Go sorts map keys in. -/
def keyLess (a b : String) : Bool := runesLess a.toList b.toList

/-- Setting a key of a Go map; the entries are kept in key order, one per key. -/
def mapSet (k : String) (v : GoVal) : List (String × GoVal) → List (String × GoVal)
  | [] => [(k, v)]
  | (k1, v1) :: rest =>
    if k = k1 then (k, v) :: rest
    else if keyLess k k1 then (k, v) :: (k1, v1) :: rest
    else (k1, v1) :: mapSet k v rest

mutual
/-- Decoding into an empty interface (`valueInterface`): the value and the
error saved on the way, if any. -/
def decodeGeneric : JSON → GoVal × Option GoError
  | .null => (.nil, none)
  | .bool b => (.bool b, none)
  | .num n =>
    if n.fitsFloat64 then (.float64 n, none)
    else (.nil, some (.unmarshalType "number" "float64"))
  | .str s => (.str s, none)
  | .arr items =>
    let r := decodeGenericItems items
    (.slice r.1, r.2)
  | .obj members =>
    let r := decodeGenericMembers members []
    (.map r.1, r.2)
/-- The items of `arrayInterface`, in order. -/
def decodeGenericItems : List JSON → List GoVal × Option GoError
  | [] => ([], none)
  | j :: js =>
    let r := decodeGeneric j
    let rs := decodeGenericItems js
    (r.1 :: rs.1, firstErr r.2 rs.2)
/-- The members of `objectInterface`, stored into the map one by one. -/
def decodeGenericMembers : List (String × JSON) → List (String × GoVal) →
    List (String × GoVal) × Option GoError
  | [], acc => (acc, none)
  | (k, j) :: ms, acc =>
    let r := decodeGeneric j
    let rs := decodeGenericMembers ms (mapSet k r.1 acc)
    (rs.1, firstErr r.2 rs.2)
end

/-- Simple case folding of one character of a key (`foldName`): the letters of
ASCII, and the two characters outside ASCII that fold onto them. -/
def foldRune (c : Char) : Char :=
  if c = Char.ofNat 0x17F then 's'
  else if c = Char.ofNat 0x212A then 'k'
  else c.toLower

/-- Case-folded form of a key. -/
def foldName (s : String) : String := String.mk (s.toList.map foldRune)

/-- The field an object key selects: the one of that exact name, else the first
whose name equals the key under case folding. -/
def findField (names : List String) (key : String) : Option String :=
  match names.find? (fun n => n = key) with
  | some n => some n
  | none => names.find? (fun n => foldName n = foldName key)

/-- Go name of a type. -/
def Shape.goName : Shape → String
  | .bool => "bool"
  | .int => "int"
  | .float64 => "float64"
  | .string => "string"
  | .iface => "interface {}"
  | .slice _ => "slice"
  | .struct _ => "struct"

mutual
/-- Zero value of a type, what `reflect.New` points to. -/
def zero : Shape → GoVal
  | .bool => .bool false
  | .int => .int 0
  | .float64 => .float64 (.int 0)
  | .string => .str ""
  | .iface => .nil
  | .slice _ => .nil
  | .struct fields => .struct (zeroFields fields)
/-- Zero values of the fields of a struct. -/
def zeroFields : List (String × Shape) → List (String × GoVal)
  | [] => []
  | (n, s) :: rest => (n, zero s) :: zeroFields rest
end

/-- Type of the field of that name. -/
def fieldShape (fields : List (String × Shape)) (name : String) : Shape :=
  match fields.find? (fun f => f.1 = name) with
  | some f => f.2
  | none => .iface

/-- Value a struct holds in the field of that name. -/
def getField (fields : List (String × GoVal)) (name : String) : GoVal :=
  match fields.find? (fun f => f.1 = name) with
  | some f => f.2
  | none => .nil

/-- Storing into the field of that name. -/
def setField (name : String) (v : GoVal) : List (String × GoVal) → List (String × GoVal)
  | [] => []
  | (n, old) :: rest => if n = name then (n, v) :: rest else (n, old) :: setField name v rest

/-- A decoding step that rejects the JSON value for the Go type and leaves the
target as it was. -/
def mismatch (cur : GoVal) (j : JSON) (s : Shape) : GoVal × Option GoError :=
  (cur, some (.unmarshalType j.kind s.goName))

mutual
/-- Decoding a JSON value into a target of a given type that holds `cur`
(`decodeState.value`): the target afterwards and the first error saved. A
mismatch leaves its target alone and decoding goes on with the rest. -/
def decodeInto : Shape → GoVal → JSON → GoVal × Option GoError
  | s, cur, .null =>
    match s with
    | .iface => (.nil, none)
    | .slice _ => (.nil, none)
    | _ => (cur, none)
  | s, cur, .bool b =>
    match s with
    | .bool => (.bool b, none)
    | .iface => (.bool b, none)
    | _ => mismatch cur (.bool b) s
  | s, cur, .num n =>
    match s with
    | .int =>
      match n.asInt64 with
      | some v => (.int v, none)
      | none => mismatch cur (.num n) s
    | .float64 => if n.fitsFloat64 then (.float64 n, none) else mismatch cur (.num n) s
    | .iface => if n.fitsFloat64 then (.float64 n, none) else mismatch cur (.num n) .float64
    | _ => mismatch cur (.num n) s
  | s, cur, .str t =>
    match s with
    | .string => (.str t, none)
    | .iface => (.str t, none)
    | _ => mismatch cur (.str t) s
  | s, cur, .arr items =>
    match s with
    | .slice elem =>
      let olds := match cur with
        | .slice xs => xs
        | _ => []
      let r := decodeElems elem olds items
      (.slice r.1, r.2)
    | .iface =>
      let r := decodeGenericItems items
      (.slice r.1, r.2)
    | _ => mismatch cur (.arr items) s
  | s, cur, .obj members =>
    match s with
    | .struct fields =>
      let olds := match cur with
        | .struct fs => fs
        | _ => zeroFields fields
      let r := decodeMembers fields olds members
      (.struct r.1, r.2)
    | .iface =>
      let r := decodeGenericMembers members []
      (.map r.1, r.2)
    | _ => mismatch cur (.obj members) s
/-- The elements of an array going into a slice: element `i` is decoded into
what the slice held at `i`, or into a zero value past its end. -/
def decodeElems : Shape → List GoVal → List JSON → List GoVal × Option GoError
  | _, _, [] => ([], none)
  | elem, olds, j :: js =>
    let r := decodeInto elem (olds.headD (zero elem)) j
    let rs := decodeElems elem olds.tail js
    (r.1 :: rs.1, firstErr r.2 rs.2)
/-- The members of an object going into a struct: a key that selects no field
is skipped. -/
def decodeMembers : List (String × Shape) → List (String × GoVal) →
    List (String × JSON) → List (String × GoVal) × Option GoError
  | _, cur, [] => (cur, none)
  | fields, cur, (k, j) :: ms =>
    match findField (fields.map Prod.fst) k with
    | none => decodeMembers fields cur ms
    | some name =>
      let r := decodeInto (fieldShape fields name) (getField cur name) j
      let rs := decodeMembers fields (setField name r.1 cur) ms
      (rs.1, firstErr r.2 rs.2)
end

/-- `json.Unmarshal(data, &x)` for `x` an interface that holds `cur`: a non-nil
pointer in the interface is decoded through, anything else is replaced by the
generic value. -/
def unmarshalIface (cur : GoVal) (j : JSON) : GoVal × Option GoError :=
  match cur with
  | .ptr elem target =>
    let r := decodeInto elem target j
    (.ptr elem r.1, r.2)
  | _ =>
    match j with
    | .num n =>
      if n.fitsFloat64 then (.float64 n, none)
      else (cur, some (.unmarshalType "number" "float64"))
    | _ => decodeGeneric j

/-! ## The envelope model (`rpc.go`, lines 17 to 57) -/

/-- The protocol-level error object, `type Error struct`. -/
structure Error where
  Code : Int
  Message : String
  deriving DecidableEq, Repr

/-- The struct type of `Error` as `encoding/json` sees it, under its tags. -/
def errorShape : Shape := .struct [("code", .int), ("message", .string)]

/-- An `Error` as a Go struct value. -/
def Error.toGo (e : rpc.Error) : GoVal :=
  .struct [("code", .int e.Code), ("message", .str e.Message)]

/-- Reading a Go struct value of type `Error` back. -/
def Error.ofGo (v : GoVal) : rpc.Error :=
  match v with
  | .struct fields =>
    { Code := match getField fields "code" with
        | .int n => n
        | _ => 0
      Message := match getField fields "message" with
        | .str s => s
        | _ => "" }
  | _ => { Code := 0, Message := "" }

/-- The method `func (e Error) Error() string`. -/
def Error.text (e : rpc.Error) : String :=
  "error " ++ toString e.Code ++ ": " ++ e.Message

/-- The caller's result type hint: a Go value, of which `reflect.TypeOf` reads
the type. -/
structure Hint where
  type : Shape
  value : GoVal

/-- The envelope, `type Response struct`; a nil `ResultType` is `none`, a nil
`Result` is `GoVal.nil`. -/
structure Response where
  Result : GoVal
  ResultType : Option Hint
  Error : Option Error

/-- The local `i` of `UnmarshalJSON`: the raw result payload and the error,
both behind pointers. -/
structure Envelope where
  Result : Option JSON
  Error : Option Error

/-- One member of the top-level object going into `i`. A null payload leaves a
nil pointer in either field; any other result payload is kept raw. -/
def envelopeMember (i : Envelope) (k : String) (j : JSON) : Envelope × Option GoError :=
  match findField ["Result", "Error"] k with
  | none => (i, none)
  | some name =>
    if name = "Result" then
      match j with
      | .null => ({ i with Result := none }, none)
      | _ => ({ i with Result := some j }, none)
    else
      match j with
      | .null => ({ i with Error := none }, none)
      | _ =>
        let cur := match i.Error with
          | some e => e.toGo
          | none => zero errorShape
        let r := decodeInto errorShape cur j
        ({ i with Error := some (Error.ofGo r.1) }, r.2)

/-- The members of the top-level object, in order. -/
def envelopeMembers : List (String × JSON) → Envelope → Envelope × Option GoError
  | [], i => (i, none)
  | (k, j) :: ms, i =>
    let r := envelopeMember i k j
    let rs := envelopeMembers ms r.1
    (rs.1, firstErr r.2 rs.2)

/-- Line 38, `json.Unmarshal(b, &i)` on a zero `i`. -/
def unmarshalEnvelope (b : Bytes) : Envelope × Option GoError :=
  let i : Envelope := { Result := none, Error := none }
  match b.tree with
  | none => (i, some .syntaxError)
  | some .null => (i, none)
  | some (.obj members) => envelopeMembers members i
  | some j => (i, some (.unmarshalType j.kind "struct"))

/-- The method `func (r *Response) UnmarshalJSON(b []byte) error`. -/
def Response.UnmarshalJSON (r : Response) (b : Bytes) : Run Response :=
  match unmarshalEnvelope b with
  | (_, some err) => .done r (some err)
  | (i, none) =>
    let r1 := { r with Error := i.Error }
    match r1.ResultType, i.Result with
    | none, some raw =>
      let d := unmarshalIface r1.Result raw
      .done { r1 with Result := d.1 } d.2
    | none, none => .panic "reflect: New(nil)"
    | some _, none => .panic "invalid memory address or nil pointer dereference"
    | some hint, some raw =>
      let d := decodeInto hint.type (zero hint.type) raw
      match d.2 with
      | some err => .done r1 (some err)
      | none => .done { r1 with Result := .ptr hint.type d.1 } none

/-! ## `encoding/json`: encoding -/

/-- The bytes of a text, `[]byte(s)`. -/
def utf8Bytes (s : String) : List Nat :=
  s.toList.flatMap (fun c => (String.utf8EncodeChar c).map UInt8.toNat)

/-- The bytes of a Go string. -/
def GoString.bytes : GoString → List Nat
  | .text s => utf8Bytes s
  | .raw bytes => bytes

/-- Whether a byte continues a UTF-8 sequence. -/
def isCont (b : Nat) : Bool := decide (0x80 ≤ b ∧ b ≤ 0xBF)

/-- The call `utf8.DecodeRune`: the character the bytes begin with and the
number of bytes it takes, none where they begin with no valid encoding (an
overlong form, a surrogate and a value past U+10FFFF are not valid). -/
def decodeRune : List Nat → Option (Char × Nat)
  | [] => none
  | b0 :: rest =>
    if b0 < 0x80 then some (Char.ofNat b0, 1)
    else if 0xC2 ≤ b0 ∧ b0 ≤ 0xDF then
      match rest with
      | b1 :: _ =>
        if isCont b1 then some (Char.ofNat ((b0 - 0xC0) * 64 + (b1 - 0x80)), 2) else none
      | _ => none
    else if 0xE0 ≤ b0 ∧ b0 ≤ 0xEF then
      match rest with
      | b1 :: b2 :: _ =>
        if (if b0 = 0xE0 then decide (0xA0 ≤ b1 ∧ b1 ≤ 0xBF)
            else if b0 = 0xED then decide (0x80 ≤ b1 ∧ b1 ≤ 0x9F)
            else isCont b1) && isCont b2 then
          some (Char.ofNat ((b0 - 0xE0) * 4096 + (b1 - 0x80) * 64 + (b2 - 0x80)), 3)
        else none
      | _ => none
    else if 0xF0 ≤ b0 ∧ b0 ≤ 0xF4 then
      match rest with
      | b1 :: b2 :: b3 :: _ =>
        if (if b0 = 0xF0 then decide (0x90 ≤ b1 ∧ b1 ≤ 0xBF)
            else if b0 = 0xF4 then decide (0x80 ≤ b1 ∧ b1 ≤ 0x8F)
            else isCont b1) && isCont b2 && isCont b3 then
          some (Char.ofNat ((b0 - 0xF0) * 262144 + (b1 - 0x80) * 4096 + (b2 - 0x80) * 64 +
            (b3 - 0x80)), 4)
        else none
      | _ => none
    else none

/-- The text `json.Marshal` writes for the bytes of a string, after skipping
the first `skip` of them: a byte that begins no valid encoding is written as
U+FFFD and the next byte is looked at afresh. -/
def coerceFrom : Nat → List Nat → List Char
  | _, [] => []
  | skip + 1, _ :: rest => coerceFrom skip rest
  | 0, b :: rest =>
    match decodeRune (b :: rest) with
    | some (c, size) => c :: coerceFrom (size - 1) rest
    | none => Char.ofNat 0xFFFD :: coerceFrom 0 rest

/-- The text a Go string is written as: itself when it is valid UTF-8. -/
def GoString.toValidUTF8 : GoString → String
  | .text s => s
  | .raw bytes => String.mk (coerceFrom 0 bytes)

/-- Whether a Go string has no bytes, as `omitempty` asks. -/
def GoString.isEmpty : GoString → Bool
  | .text s => s = ""
  | .raw bytes => bytes.isEmpty

/-- Order of two byte strings, first difference deciding. -/
def bytesLess : List Nat → List Nat → Bool
  | _, [] => false
  | [], _ :: _ => true
  | c :: cs, d :: ds => decide (c < d) || (c == d && bytesLess cs ds)

/-- Putting one member in its place among members in key order. -/
def insertMember (m : String × JSON) : List (String × JSON) → List (String × JSON)
  | [] => [m]
  | n :: rest => if keyLess n.1 m.1 then n :: insertMember m rest else m :: n :: rest

/-- Members of an object put in key order, as `json.Marshal` writes a map. -/
def sortMembers : List (String × JSON) → List (String × JSON)
  | [] => []
  | m :: ms => insertMember m (sortMembers ms)

/-- The same for a member under a key that is given by its bytes. -/
def insertRawMember (m : GoString × JSON) : List (GoString × JSON) → List (GoString × JSON)
  | [] => [m]
  | n :: rest =>
    if bytesLess n.1.bytes m.1.bytes then n :: insertRawMember m rest else m :: n :: rest

/-- Members under keys given by their bytes, put in the order of the bytes. -/
def sortRawMembers : List (GoString × JSON) → List (GoString × JSON)
  | [] => []
  | m :: ms => insertRawMember m (sortRawMembers ms)

mutual
/-- The JSON value `json.Marshal` writes for a Go value, none when it refuses
the value (an unsupported type, or a float that is not finite). A string and a
map key are written as valid UTF-8. -/
def marshal : GoVal → Option JSON
  | .nil => some .null
  | .bool b => some (.bool b)
  | .int n => some (.num (.int n))
  | .float64 x => if x.fitsFloat64 then some (.num x) else none
  | .str s => some (.str s)
  | .slice items => (marshalItems items).map JSON.arr
  | .map entries => (marshalEntries entries).map (fun ms => JSON.obj (sortMembers ms))
  | .struct fields => (marshalEntries fields).map JSON.obj
  | .ptr _ target => marshal target
  | .chan => none
  | .typedNil => some .null
  | .rawStr bytes => some (.str (String.mk (coerceFrom 0 bytes)))
  | .rawMap entries =>
    (marshalRawEntries entries).map (fun ms =>
      JSON.obj ((sortRawMembers ms).map (fun m => (m.1.toValidUTF8, m.2))))
/-- The elements of a slice, in order. -/
def marshalItems : List GoVal → Option (List JSON)
  | [] => some []
  | v :: vs =>
    match marshal v, marshalItems vs with
    | some j, some js => some (j :: js)
    | _, _ => none
/-- The entries of a map or the fields of a struct, under their names. -/
def marshalEntries : List (String × GoVal) → Option (List (String × JSON))
  | [] => some []
  | (k, v) :: rest =>
    match marshal v, marshalEntries rest with
    | some j, some js => some ((k, j) :: js)
    | _, _ => none
/-- The entries of a map under keys given by their bytes. -/
def marshalRawEntries : List (GoString × GoVal) → Option (List (GoString × JSON))
  | [] => some []
  | (k, v) :: rest =>
    match marshal v, marshalRawEntries rest with
    | some j, some js => some ((k, j) :: js)
    | _, _ => none
end

/-! ## The request (`rpc.go`, lines 59 to 64) -/

/-- The call, `type Request struct`. -/
structure Request where
  JsonRPC : GoString
  Method : GoString
  Params : GoVal
  Id : Int

/-- The struct type of `Request` under its tags. -/
def requestShape : Shape :=
  .struct [("jsonrpc", .string), ("method", .string), ("params", .iface), ("id", .int)]

/-- Line 81, `json.Marshal(obj)`: `jsonrpc` is left out when empty
(`omitempty`), the other three members are always written; the two strings
are written as valid UTF-8. -/
def marshalRequest (obj : Request) : Except GoError JSON :=
  match marshal obj.Params with
  | none => .error .unsupportedType
  | some params =>
    .ok (.obj ((if obj.JsonRPC.isEmpty then []
        else [("jsonrpc", JSON.str obj.JsonRPC.toValidUTF8)]) ++
      [("method", .str obj.Method.toValidUTF8), ("params", params),
        ("id", .num (.int obj.Id))]))

/-- Reading a Go struct value of type `Request` back. -/
def Request.ofGo (v : GoVal) : Request :=
  match v with
  | .struct fields =>
    { JsonRPC := match getField fields "jsonrpc" with
        | .str s => .text s
        | .rawStr bytes => .raw bytes
        | _ => .text ""
      Method := match getField fields "method" with
        | .str s => .text s
        | .rawStr bytes => .raw bytes
        | _ => .text ""
      Params := getField fields "params"
      Id := match getField fields "id" with
        | .int n => n
        | _ => 0 }
  | _ => { JsonRPC := .text "", Method := .text "", Params := .nil, Id := 0 }

/-- The inverse step of the round trip, `json.Unmarshal(data, &req)` on a zero
`Request`. -/
def unmarshalRequest (j : JSON) : Request × Option GoError :=
  let r := decodeInto requestShape (zero requestShape) j
  (Request.ofGo r.1, r.2)

/-! ## `encoding/base64` and `strings` -/

/-- The alphabet of `base64.StdEncoding`. -/
def base64Alphabet : List Char :=
  "ABCDEFGHIJKLMNOPQRSTUVWXYZabcdefghijklmnopqrstuvwxyz0123456789+/".toList

/-- The character for a six-bit group. -/
def base64Char (n : Nat) : Char := base64Alphabet.getD n 'A'

/-- Three bytes at a time into four characters, the tail padded with `=`. -/
def base64Chars : List Nat → List Char
  | a :: b :: c :: rest =>
    base64Char (a / 4) :: base64Char (a % 4 * 16 + b / 16) ::
      base64Char (b % 16 * 4 + c / 64) :: base64Char (c % 64) :: base64Chars rest
  | [a, b] =>
    [base64Char (a / 4), base64Char (a % 4 * 16 + b / 16), base64Char (b % 16 * 4), '=']
  | [a] => [base64Char (a / 4), base64Char (a % 4 * 16), '=', '=']
  | [] => []

/-- The call `base64.StdEncoding.EncodeToString([]byte(s))`. -/
def base64Encode (s : String) : String := String.mk (base64Chars (utf8Bytes s))

/-- Whether a list of characters begins with another. -/
def startsWith : List Char → List Char → Bool
  | _, [] => true
  | [], _ :: _ => false
  | c :: cs, d :: ds => c == d && startsWith cs ds

/-- Whether a list of characters holds another as a run. -/
def containsRun : List Char → List Char → Bool
  | [], sub => startsWith [] sub
  | c :: cs, sub => startsWith (c :: cs) sub || containsRun cs sub

/-- The call `strings.Contains(s, substr)`. -/
def stringsContains (s substr : String) : Bool := containsRun s.toList substr.toList

/-! ## The client (`rpc.go`, lines 66 to 118) -/

/-- The connection target and credentials, `type Client struct`. -/
structure Client where
  Host : String
  User : String
  Pass : String

/-- The outbound message, `*http.Request`, as far as `Do` fills it in. -/
structure HTTPRequest where
  Method : String
  URL : String
  Header : List (String × List String)
  Body : JSON

/-- The body of a response as a stream: its text, the error reading it ends in
(none at a clean end), and the first JSON value a `json.Decoder` reads off it. -/
structure ResponseBody where
  text : String
  readErr : Option GoError
  first : Option JSON

/-- The answer of the transport, `*http.Response`. -/
structure HTTPResponse where
  Status : String
  StatusCode : Int
  Body : ResponseBody

/-- What `net/http` contributes: whether `http.NewRequest` accepts the target,
and what `http.DefaultClient.Do` answers to a message. -/
structure Net where
  parseURL : String → Option GoError
  send : HTTPRequest → Except GoError HTTPResponse

/-- The variable `DefaultClient`. -/
def DefaultClient : Client := { Host := "http://localhost:8232", User := "", Pass := "" }

/-- The call `req.Header.Add(key, value)`. -/
def headerAdd (key value : String) : List (String × List String) → List (String × List String)
  | [] => [(key, [value])]
  | (k, vs) :: rest =>
    if k = key then (k, vs ++ [value]) :: rest else (k, vs) :: headerAdd key value rest

/-- The values a header carries under a key. -/
def headerGet (key : String) (h : List (String × List String)) : Option (List String) :=
  (h.find? (fun kv => kv.1 = key)).map Prod.snd

/-- Lines 86 to 97 of `Do`: the message for the serialised request. -/
def Client.buildRequest (net : Net) (c : Client) (data : JSON) : Except GoError HTTPRequest :=
  match net.parseURL c.Host with
  | some err => .error err
  | none =>
    let req : HTTPRequest :=
      { Method := "POST", URL := c.Host, Header := [("Content-Type", ["application/json"])],
        Body := data }
    if c.User ≠ "" then
      let auth := "Basic " ++ base64Encode (c.User ++ ":" ++ c.Pass)
      .ok { req with Header := headerAdd "Authorization" auth req.Header }
    else .ok req

/-- The call `ioutil.ReadAll(resp.Body)`. -/
def readAll (body : ResponseBody) : Except GoError String :=
  match body.readErr with
  | some err => .error err
  | none => .ok body.text

/-- Line 117, `json.NewDecoder(resp.Body).Decode(out)` for `out` a `*Response`:
the decoder reads one value off the stream and hands its bytes to
`UnmarshalJSON`. -/
def decodeBody (body : ResponseBody) (out : Response) : Run Response :=
  match body.first with
  | none => .done out (some (body.readErr.getD .syntaxError))
  | some j => Response.UnmarshalJSON out { text := body.text, tree := some j }

/-- The method `func (c *Client) Do(obj *Request, out interface{}) error`, for a
destination that is a `*Response`. -/
def Client.Do (net : Net) (c : Client) (obj : Request) (out : Response) : Run Response :=
  match marshalRequest obj with
  | .error err => .done out (some err)
  | .ok data =>
    match c.buildRequest net data with
    | .error err => .done out (some err)
    | .ok req =>
      match net.send req with
      | .error err =>
        if stringsContains err.Error "connection refused" then
          .done out (some (.errorf "failed to connect to daemon, is it running?"))
        else .done out (some err)
      | .ok resp =>
        if resp.StatusCode ≠ 200 then
          match readAll resp.Body with
          | .error err => .done out (some err)
          | .ok data => .done out (some (.errorf (resp.Status ++ ": " ++ data)))
        else decodeBody resp.Body out

/-- The function `func Do(obj *Request, out interface{}) error`. -/
def Do (net : Net) (obj : Request) (out : Response) : Run Response :=
  DefaultClient.Do net obj out

/-! ## Inputs the statements below are evaluated at -/

/-- A zero destination, no hint. -/
def emptyResponse : Response := { Result := .nil, ResultType := none, Error := none }

/-- A zero destination that asks for an integer. -/
def intResponse : Response :=
  { Result := .nil, ResultType := some { type := .int, value := .int 0 }, Error := none }

/-- The body of a failed call. -/
def errorBody : Bytes :=
  { text := "\x7b\"error\": \x7b\"code\": 7, \"message\": \"boom\"\x7d\x7d",
    tree := some (.obj [("error", .obj [("code", .num (.int 7)), ("message", .str "boom")])]) }

/-- The body of a successful call. -/
def resultBody : Bytes :=
  { text := "\x7b\"result\": 42\x7d", tree := some (.obj [("result", .num (.int 42))]) }

/-- A call without parameters. -/
def pingRequest : Request :=
  { JsonRPC := .text "2.0", Method := .text "ping", Params := .nil, Id := 1 }

/-- A transport that answers every message the same way. -/
def replyNet (answer : Except GoError HTTPResponse) : Net :=
  { parseURL := fun _ => none, send := fun _ => answer }

/-- The answer 200 around the body of a failed call. -/
def errorReply : HTTPResponse :=
  { Status := "200 OK", StatusCode := 200,
    Body := { text := errorBody.text, readErr := none, first := errorBody.tree } }

/-- The answer of a server that does not know the method. -/
def notFoundReply : HTTPResponse :=
  { Status := "404 Not Found", StatusCode := 404,
    Body := { text := "no such method", readErr := none, first := none } }

/-- A client with credentials. -/
def authClient : Client := { Host := "http://localhost:8232", User := "Aladdin", Pass := "open sesame" }

/-- An answer of another 2xx status around a body that would decode. -/
def createdReply : HTTPResponse :=
  { Status := "201 Created", StatusCode := 201,
    Body := { text := resultBody.text, readErr := none, first := resultBody.tree } }

/-- The answer 200 around the body of a successful call. -/
def okReply : HTTPResponse :=
  { Status := "200 OK", StatusCode := 200,
    Body := { text := resultBody.text, readErr := none, first := resultBody.tree } }

/-- A client with a password and no user name. -/
def passOnlyClient : Client := { Host := "http://localhost:8232", User := "", Pass := "secret" }

/-! ## The shape of a payload, as the specification words it -/

mutual
/-- Whether every number in a JSON value is one a generic value can hold, that
is, inside the range of a float. -/
def numbersFit : JSON → Bool
  | .null => true
  | .bool _ => true
  | .num n => n.fitsFloat64
  | .str _ => true
  | .arr items => numbersFitItems items
  | .obj members => numbersFitMembers members
/-- The same for the items of an array. -/
def numbersFitItems : List JSON → Bool
  | [] => true
  | j :: js => numbersFit j && numbersFitItems js
/-- The same for the members of an object. -/
def numbersFitMembers : List (String × JSON) → Bool
  | [] => true
  | (_, j) :: ms => numbersFit j && numbersFitMembers ms
end

mutual
/-- Whether a payload matches the shape of a type: a boolean for `bool`, an
integer in range for `int`, a number in range for `float64`, a string for
`string`, an array of matching items for a slice, an object whose members match
the fields they name for a struct, anything for an interface; null matches
every shape. -/
def fits : Shape → JSON → Bool
  | _, .null => true
  | s, .bool _ =>
    match s with
    | .bool => true
    | .iface => true
    | _ => false
  | s, .num n =>
    match s with
    | .int => n.asInt64.isSome
    | .float64 => n.fitsFloat64
    | .iface => n.fitsFloat64
    | _ => false
  | s, .str _ =>
    match s with
    | .string => true
    | .iface => true
    | _ => false
  | s, .arr items =>
    match s with
    | .slice elem => fitsItems elem items
    | .iface => numbersFitItems items
    | _ => false
  | s, .obj members =>
    match s with
    | .struct fields => fitsMembers fields members
    | .iface => numbersFitMembers members
    | _ => false
/-- Every item of an array matches the element type. -/
def fitsItems : Shape → List JSON → Bool
  | _, [] => true
  | elem, j :: js => fits elem j && fitsItems elem js
/-- Every member of an object that names a field matches the type of the field. -/
def fitsMembers : List (String × Shape) → List (String × JSON) → Bool
  | _, [] => true
  | fields, (k, j) :: ms =>
    (match findField (fields.map Prod.fst) k with
      | none => true
      | some name => fits (fieldShape fields name) j) && fitsMembers fields ms
end

/-- A body whose result is a number no float holds. -/
def hugeBody : Bytes :=
  { text := "\x7b\"result\": 1e999\x7d", tree := some (.obj [("result", .num (.dec 1 999))]) }

/-- A body whose result is an array around such a number. -/
def hugeItemBody : Bytes :=
  { text := "\x7b\"result\": [1e999]\x7d",
    tree := some (.obj [("result", .arr [.num (.dec 1 999)])]) }

/-- A body whose result is a string. -/
def textBody : Bytes :=
  { text := "\x7b\"result\": \"forty-two\"\x7d",
    tree := some (.obj [("result", .str "forty-two")]) }

/-- The body `null`. -/
def nullBody : Bytes := { text := "null", tree := some .null }

/-- Bytes that are not JSON. -/
def brokenBody : Bytes := { text := "\x7b\"result\": ", tree := none }

/-- A body that is an array. -/
def arrayBody : Bytes := { text := "[1]", tree := some (.arr [.num (.int 1)]) }

/-- A body whose error member is a string. -/
def badErrorBody : Bytes :=
  { text := "\x7b\"result\": 1, \"error\": \"boom\"\x7d",
    tree := some (.obj [("result", .num (.int 1)), ("error", .str "boom")]) }

/-- A body with a result that does not match an integer, next to an error. -/
def mixedBody : Bytes :=
  { text := "\x7b\"result\": \"x\", \"error\": \x7b\"code\": 7, \"message\": \"boom\"\x7d\x7d",
    tree := some (.obj [("result", .str "x"),
      ("error", .obj [("code", .num (.int 7)), ("message", .str "boom")])]) }

/-- Every member of a top-level object that names the error field matches the
shape of an `Error` (or is null). -/
def errorMembersFit : List (String × JSON) → Bool
  | [] => true
  | (k, j) :: ms =>
    (match findField ["Result", "Error"] k with
      | none => true
      | some name => if name = "Result" then true else fits errorShape j) && errorMembersFit ms

/-- Whether a JSON value has the shape of the envelope: an object, its error
member, if any, an object with an integer code and a string message. -/
def envelopeShaped : JSON → Bool
  | .obj members => errorMembersFit members
  | _ => false

/-! ## Generic values -/

/-- Every key is below all the keys after it. -/
def ascending : List String → Bool
  | [] => true
  | k :: ks => ks.all (keyLess k) && ascending ks

mutual
/-- Whether a Go value is one generic decoding produces: the nil interface, a
`bool`, a finite `float64`, a `string` of valid UTF-8, a non-nil `[]interface{}`
or a non-nil `map[string]interface{}` with keys of valid UTF-8, of such values
(a map being kept in key order). -/
def isGeneric : GoVal → Bool
  | .nil => true
  | .bool _ => true
  | .float64 x => x.fitsFloat64
  | .str _ => true
  | .slice items => isGenericItems items
  | .map entries => isGenericEntries entries && ascending (entries.map Prod.fst)
  | .int _ => false
  | .struct _ => false
  | .ptr _ _ => false
  | .chan => false
  | .typedNil => false
  | .rawStr _ => false
  | .rawMap _ => false
/-- The same for the elements of a slice. -/
def isGenericItems : List GoVal → Bool
  | [] => true
  | v :: vs => isGeneric v && isGenericItems vs
/-- The same for the values of a map. -/
def isGenericEntries : List (String × GoVal) → Bool
  | [] => true
  | (_, v) :: rest => isGeneric v && isGenericEntries rest
end

/-- A call whose parameter is a Go `int`. -/
def intRequest : Request :=
  { JsonRPC := .text "", Method := .text "getblockhash", Params := .int 5, Id := 1 }

/-- A call whose method name is the bytes `a`, 0xFF, `b`, which are not valid
UTF-8. -/
def rawMethodRequest : Request :=
  { JsonRPC := .text "2.0", Method := .raw [0x61, 0xFF, 0x62], Params := .nil, Id := 1 }

/-- A call with no version tag, whose method name and parameter are text outside
ASCII. -/
def textRequest : Request :=
  { JsonRPC := .text "", Method := .text "größe", Params := .str "日本語 <&>", Id := -3 }

/-- A call whose parameters are generic values. -/
def genericRequest : Request :=
  { JsonRPC := .text "2.0", Method := .text "sum",
    Params := .slice [.float64 (.int 1), .map [("a", .str "x"), ("b", .nil)], .bool true],
    Id := 7 }

/-- A destination used before with an integer hint, the hint since removed. -/
def reusedResponse : Response :=
  { Result := .ptr .int (.int 0), ResultType := none, Error := none }

/-! # Properties -/

/-! ## The error body -/

/-- Line 38 on the body of a failed call: the error member is read, the result
pointer stays nil. -/
theorem unmarshalEnvelope_error_body (t : String) (c : Int) (m : String)
    (hc : (JNum.int c).asInt64 = some c) :
    unmarshalEnvelope
        ⟨t, some (.obj [("error", .obj [("code", .num (.int c)), ("message", .str m)])])⟩ =
      ({ Result := none, Error := some ⟨c, m⟩ }, none) := by
  simp [unmarshalEnvelope, envelopeMembers, envelopeMember, findField, foldName, foldRune,
    decodeInto, errorShape, decodeMembers, hc, zero, zeroFields, fieldShape, getField, setField,
    firstErr, Error.ofGo]

/-- Lines 45 to 50 with a nil `i.Result`: the guard of line 45 fails and the next
statements panic, `reflect.New` on a nil type or the dereference of `i.Result`. -/
theorem UnmarshalJSON_nil_result (r : Response) (b : Bytes) (i : Envelope)
    (hu : unmarshalEnvelope b = (i, none)) (hres : i.Result = none) :
    ∃ msg, r.UnmarshalJSON b = .panic msg := by
  unfold Response.UnmarshalJSON
  rw [hu]
  cases ht : r.ResultType <;> simp [hres]

/-- C1: on a body that line 38 accepts and that has no result member, `UnmarshalJSON`
does not return at all, hint or no hint: it panics at line 49 or line 50, where the
claim has it succeed with `Error` set and `Result` unset. -/
theorem UnmarshalJSON_no_result_panics (r : Response) (b : Bytes)
    (hok : (unmarshalEnvelope b).2 = none) (hres : (unmarshalEnvelope b).1.Result = none) :
    ∃ msg, r.UnmarshalJSON b = .panic msg := by
  rcases hu : unmarshalEnvelope b with ⟨i, e⟩
  rw [hu] at hok hres
  simp only at hok hres
  subst hok
  exact UnmarshalJSON_nil_result r b i hu hres

/-- The body `{"error": {"code": 7, "message": "boom"}}` is such a body, with or
without a hint. -/
theorem UnmarshalJSON_no_result_panics_witness :
    (unmarshalEnvelope errorBody).2 = none ∧ (unmarshalEnvelope errorBody).1.Result = none ∧
    (unmarshalEnvelope errorBody).1.Error = some { Code := 7, Message := "boom" } ∧
    (∃ msg, emptyResponse.UnmarshalJSON errorBody = .panic msg) ∧
    (∃ msg, intResponse.UnmarshalJSON errorBody = .panic msg) :=
  ⟨rfl, rfl, rfl, UnmarshalJSON_no_result_panics emptyResponse errorBody rfl rfl,
    UnmarshalJSON_no_result_panics intResponse errorBody rfl rfl⟩

/-- C2: a 200 answer that carries a protocol-level error object and no result makes
`Client.Do` panic in the decode step, for every request it can serialise and every
destination, where the claim has it return nil with `Error` filled in. -/
theorem Do_error_reply_panics (net : Net) (c : Client) (obj : Request) (out : Response)
    (data : JSON) (req : HTTPRequest) (resp : HTTPResponse) (j : JSON)
    (hdata : marshalRequest obj = .ok data) (hreq : c.buildRequest net data = .ok req)
    (hsend : net.send req = .ok resp) (hstatus : resp.StatusCode = 200)
    (hbody : resp.Body.first = some j)
    (hok : (unmarshalEnvelope ⟨resp.Body.text, some j⟩).2 = none)
    (hres : (unmarshalEnvelope ⟨resp.Body.text, some j⟩).1.Result = none) :
    ∃ msg, c.Do net obj out = .panic msg := by
  rcases hu : unmarshalEnvelope ⟨resp.Body.text, some j⟩ with ⟨i, e⟩
  rw [hu] at hok hres
  simp only at hok hres
  subst hok
  obtain ⟨msg, hmsg⟩ := UnmarshalJSON_nil_result out ⟨resp.Body.text, some j⟩ i hu hres
  exact ⟨msg, by simp [Client.Do, hdata, hreq, hsend, hstatus, decodeBody, hbody, hmsg]⟩

/-- The default client, a call without parameters and the answer 200 around
`{"error": {"code": 7, "message": "boom"}}`. -/
theorem Do_error_reply_panics_witness :
    ∃ msg, DefaultClient.Do (replyNet (.ok errorReply)) pingRequest emptyResponse = .panic msg :=
  Do_error_reply_panics (replyNet (.ok errorReply)) DefaultClient pingRequest emptyResponse
    _ _ errorReply _ rfl rfl rfl rfl rfl rfl rfl

/-! ## Failures of the transport and of the server -/

/-- C5: when the transport fails with `e`, `Do` returns the fixed message
"failed to connect to daemon, is it running?" if the text of `e` contains
"connection refused", and `e` itself otherwise; the destination is as it was. -/
theorem Do_transport_failure (net : Net) (c : Client) (obj : Request) (out : Response)
    (data : JSON) (req : HTTPRequest) (e : GoError)
    (hdata : marshalRequest obj = .ok data) (hreq : c.buildRequest net data = .ok req)
    (hsend : net.send req = .error e) :
    (stringsContains e.Error "connection refused" = true →
      c.Do net obj out = .done out (some (.errorf "failed to connect to daemon, is it running?")) ∧
      (GoError.errorf "failed to connect to daemon, is it running?").Error =
        "failed to connect to daemon, is it running?") ∧
    (stringsContains e.Error "connection refused" = false →
      c.Do net obj out = .done out (some e)) := by
  constructor
  · intro h
    exact ⟨by simp [Client.Do, hdata, hreq, hsend, h], rfl⟩
  · intro h
    simp [Client.Do, hdata, hreq, hsend, h]

/-- A refused connection and a timeout. -/
theorem Do_transport_failure_witness :
    DefaultClient.Do (replyNet (.error (.transport "dial tcp 127.0.0.1:8232: connect: connection refused")))
        pingRequest emptyResponse =
      .done emptyResponse (some (.errorf "failed to connect to daemon, is it running?")) ∧
    DefaultClient.Do (replyNet (.error (.transport "context deadline exceeded")))
        pingRequest emptyResponse =
      .done emptyResponse (some (.transport "context deadline exceeded")) :=
  ⟨((Do_transport_failure (replyNet (.error (.transport "dial tcp 127.0.0.1:8232: connect: connection refused")))
      DefaultClient pingRequest emptyResponse _ _ _ rfl rfl rfl).1 (by decide)).1,
   (Do_transport_failure (replyNet (.error (.transport "context deadline exceeded")))
      DefaultClient pingRequest emptyResponse _ _ _ rfl rfl rfl).2 (by decide)⟩

/-- C6: a response whose status code is not 200 makes `Do` return a non-nil error
and leaves the destination alone; when the body is read to its end the text of the
error is the status line, ": " and the body text. A status of 200 is the one that
goes on to the decode step. -/
theorem Do_status_not_200 (net : Net) (c : Client) (obj : Request) (out : Response)
    (data : JSON) (req : HTTPRequest) (resp : HTTPResponse)
    (hdata : marshalRequest obj = .ok data) (hreq : c.buildRequest net data = .ok req)
    (hsend : net.send req = .ok resp) :
    (resp.StatusCode ≠ 200 →
      (∃ e, c.Do net obj out = .done out (some e)) ∧
      (resp.Body.readErr = none →
        ∃ e, c.Do net obj out = .done out (some e) ∧
          e.Error = resp.Status ++ ": " ++ resp.Body.text)) ∧
    (resp.StatusCode = 200 → c.Do net obj out = decodeBody resp.Body out) := by
  refine ⟨fun hne => ⟨?_, fun hread => ?_⟩, fun h200 => ?_⟩
  · cases hr : resp.Body.readErr with
    | none =>
      exact ⟨.errorf (resp.Status ++ ": " ++ resp.Body.text),
        by simp [Client.Do, hdata, hreq, hsend, hne, readAll, hr]⟩
    | some err => exact ⟨err, by simp [Client.Do, hdata, hreq, hsend, hne, readAll, hr]⟩
  · exact ⟨.errorf (resp.Status ++ ": " ++ resp.Body.text),
      by simp [Client.Do, hdata, hreq, hsend, hne, readAll, hread], rfl⟩
  · simp [Client.Do, hdata, hreq, hsend, h200]

/-- The status line "404 Not Found" and the body "no such method", and the
status 201 around a body that would decode. -/
theorem Do_status_not_200_witness :
    (∃ e, DefaultClient.Do (replyNet (.ok notFoundReply)) pingRequest emptyResponse =
        .done emptyResponse (some e) ∧ e.Error = "404 Not Found: no such method") ∧
    (∃ e, DefaultClient.Do (replyNet (.ok createdReply)) pingRequest emptyResponse =
        .done emptyResponse (some e)) ∧
    DefaultClient.Do (replyNet (.ok okReply)) pingRequest emptyResponse =
      decodeBody okReply.Body emptyResponse :=
  ⟨((Do_status_not_200 (replyNet (.ok notFoundReply)) DefaultClient pingRequest emptyResponse
      _ _ notFoundReply rfl rfl rfl).1 (by decide)).2 rfl,
   ((Do_status_not_200 (replyNet (.ok createdReply)) DefaultClient pingRequest emptyResponse
      _ _ createdReply rfl rfl rfl).1 (by decide)).1,
   (Do_status_not_200 (replyNet (.ok okReply)) DefaultClient pingRequest emptyResponse
      _ _ okReply rfl rfl rfl).2 rfl⟩

/-! ## The outbound message -/

/-- C7: the message `Do` builds carries an Authorization header exactly when the
user name is not empty, whatever the password, and its one value is "Basic "
followed by the base64 encoding of user name, ":" and password. -/
theorem buildRequest_authorization (net : Net) (c : Client) (data : JSON) (req : HTTPRequest)
    (hreq : c.buildRequest net data = .ok req) :
    (c.User ≠ "" → headerGet "Authorization" req.Header =
      some ["Basic " ++ base64Encode (c.User ++ ":" ++ c.Pass)]) ∧
    (c.User = "" → headerGet "Authorization" req.Header = none) ∧
    headerGet "Content-Type" req.Header = some ["application/json"] ∧
    req.Method = "POST" ∧ req.URL = c.Host ∧ req.Body = data := by
  unfold Client.buildRequest at hreq
  cases hu : net.parseURL c.Host with
  | some err => simp [hu] at hreq
  | none =>
    simp only [hu] at hreq
    by_cases hUser : c.User = ""
    · simp [hUser] at hreq
      subst hreq
      simp [hUser, headerGet]
    · simp [hUser] at hreq
      subst hreq
      simp [hUser, headerGet, headerAdd]

/-- A client with user name and password, one with a password alone. -/
theorem buildRequest_authorization_witness :
    (∃ req, authClient.buildRequest (replyNet (.ok okReply)) .null = .ok req ∧
      headerGet "Authorization" req.Header = some ["Basic QWxhZGRpbjpvcGVuIHNlc2FtZQ=="]) ∧
    (∃ req, passOnlyClient.buildRequest (replyNet (.ok okReply)) .null = .ok req ∧
      headerGet "Authorization" req.Header = none) :=
  ⟨⟨_, rfl, (buildRequest_authorization (replyNet (.ok okReply)) authClient .null _ rfl).1
      (by decide)⟩,
   ⟨_, rfl, (buildRequest_authorization (replyNet (.ok okReply)) passOnlyClient .null _ rfl).2.1
      rfl⟩⟩

/-! ## When decoding saves an error -/

theorem firstErr_eq_none (a b : Option GoError) : firstErr a b = none ↔ a = none ∧ b = none := by
  cases a <;> simp [firstErr]

mutual
theorem decodeGeneric_ok (j : JSON) : (decodeGeneric j).2 = none ↔ numbersFit j = true := by
  cases j with
  | null => simp [decodeGeneric, numbersFit]
  | bool b => simp [decodeGeneric, numbersFit]
  | num n => cases h : n.fitsFloat64 <;> simp [decodeGeneric, numbersFit, h]
  | str s => simp [decodeGeneric, numbersFit]
  | arr items => simpa [decodeGeneric, numbersFit] using decodeGenericItems_ok items
  | obj members => simpa [decodeGeneric, numbersFit] using decodeGenericMembers_ok members []
theorem decodeGenericItems_ok (js : List JSON) :
    (decodeGenericItems js).2 = none ↔ numbersFitItems js = true := by
  cases js with
  | nil => simp [decodeGenericItems, numbersFitItems]
  | cons j js =>
    simp [decodeGenericItems, numbersFitItems, firstErr_eq_none, decodeGeneric_ok j,
      decodeGenericItems_ok js]
theorem decodeGenericMembers_ok (ms : List (String × JSON)) (acc : List (String × GoVal)) :
    (decodeGenericMembers ms acc).2 = none ↔ numbersFitMembers ms = true := by
  cases ms with
  | nil => simp [decodeGenericMembers, numbersFitMembers]
  | cons m ms =>
    obtain ⟨k, j⟩ := m
    simp [decodeGenericMembers, numbersFitMembers, firstErr_eq_none, decodeGeneric_ok j,
      decodeGenericMembers_ok ms]
end

mutual
theorem decodeInto_ok (s : Shape) (cur : GoVal) (j : JSON) :
    (decodeInto s cur j).2 = none ↔ fits s j = true := by
  cases j with
  | null => cases s <;> simp [decodeInto, fits]
  | bool b => cases s <;> simp [decodeInto, fits, mismatch]
  | num n =>
    cases s with
    | int => cases h : n.asInt64 <;> simp [decodeInto, fits, mismatch, h]
    | float64 => cases h : n.fitsFloat64 <;> simp [decodeInto, fits, mismatch, h]
    | iface => cases h : n.fitsFloat64 <;> simp [decodeInto, fits, mismatch, h]
    | _ => simp [decodeInto, fits, mismatch]
  | str t => cases s <;> simp [decodeInto, fits, mismatch]
  | arr items =>
    cases s with
    | slice elem => simpa [decodeInto, fits] using decodeElems_ok elem _ items
    | iface => simpa [decodeInto, fits] using decodeGenericItems_ok items
    | _ => simp [decodeInto, fits, mismatch]
  | obj members =>
    cases s with
    | struct fields => simpa [decodeInto, fits] using decodeMembers_ok fields _ members
    | iface => simpa [decodeInto, fits] using decodeGenericMembers_ok members []
    | _ => simp [decodeInto, fits, mismatch]
theorem decodeElems_ok (elem : Shape) (olds : List GoVal) (js : List JSON) :
    (decodeElems elem olds js).2 = none ↔ fitsItems elem js = true := by
  cases js with
  | nil => simp [decodeElems, fitsItems]
  | cons j js =>
    simp [decodeElems, fitsItems, firstErr_eq_none, decodeInto_ok elem _ j,
      decodeElems_ok elem _ js]
theorem decodeMembers_ok (fields : List (String × Shape)) (cur : List (String × GoVal))
    (ms : List (String × JSON)) :
    (decodeMembers fields cur ms).2 = none ↔ fitsMembers fields ms = true := by
  cases ms with
  | nil => simp [decodeMembers, fitsMembers]
  | cons m ms =>
    obtain ⟨k, j⟩ := m
    cases h : findField (fields.map Prod.fst) k with
    | none => simpa [decodeMembers, fitsMembers, h] using decodeMembers_ok fields cur ms
    | some name =>
      simp [decodeMembers, fitsMembers, h, firstErr_eq_none, decodeInto_ok _ _ j,
        decodeMembers_ok fields _ ms]
end

/-! ## Decoding the result -/

/-- Line 38 on the body of a successful call: the payload is kept raw. -/
theorem unmarshalEnvelope_result_body (t : String) (raw : JSON) (hraw : raw ≠ .null) :
    unmarshalEnvelope ⟨t, some (.obj [("result", raw)])⟩ =
      ({ Result := some raw, Error := none }, none) := by
  cases raw <;>
    simp_all [unmarshalEnvelope, envelopeMembers, envelopeMember, findField, foldName, foldRune,
      firstErr]

/-- C3: with a hint, a body that line 38 accepts and whose result payload is there and
matches the shape of the hint makes `UnmarshalJSON` succeed; `Result` is then a
pointer to a fresh value of the hinted type holding the decoded payload, `Error`
the error member of the body and `ResultType` what it was. Another hint value of
the same type gives the same `Result`. -/
theorem UnmarshalJSON_hinted (r : Response) (hint : Hint) (b : Bytes) (raw : JSON)
    (hhint : r.ResultType = some hint) (hok : (unmarshalEnvelope b).2 = none)
    (hraw : (unmarshalEnvelope b).1.Result = some raw) (hfits : fits hint.type raw = true) :
    r.UnmarshalJSON b = .done
      { Result := .ptr hint.type (decodeInto hint.type (zero hint.type) raw).1,
        ResultType := some hint, Error := (unmarshalEnvelope b).1.Error } none ∧
    ∀ v : GoVal, Response.UnmarshalJSON { r with ResultType := some ⟨hint.type, v⟩ } b = .done
      { Result := .ptr hint.type (decodeInto hint.type (zero hint.type) raw).1,
        ResultType := some ⟨hint.type, v⟩, Error := (unmarshalEnvelope b).1.Error } none := by
  have hd := (decodeInto_ok hint.type (zero hint.type) raw).2 hfits
  rcases hu : unmarshalEnvelope b with ⟨i, e⟩
  rw [hu] at hok hraw
  simp only at hok hraw
  subst hok
  constructor
  · simp [Response.UnmarshalJSON, hu, hhint, hraw, hd]
  · intro v
    simp [Response.UnmarshalJSON, hu, hraw, hd]

/-- The body `{"result": 42}` and an integer hint: the instance reads back 42,
whatever integer the hint itself was. -/
theorem UnmarshalJSON_hinted_witness :
    intResponse.UnmarshalJSON resultBody = .done
      { Result := .ptr .int (.int 42), ResultType := some ⟨.int, .int 0⟩, Error := none } none ∧
    Response.UnmarshalJSON { intResponse with ResultType := some ⟨.int, .int 5⟩ } resultBody =
      .done { Result := .ptr .int (.int 42), ResultType := some ⟨.int, .int 5⟩, Error := none }
        none :=
  ⟨(UnmarshalJSON_hinted intResponse ⟨.int, .int 0⟩ resultBody (.num (.int 42))
      rfl rfl rfl rfl).1,
   (UnmarshalJSON_hinted intResponse ⟨.int, .int 0⟩ resultBody (.num (.int 42))
      rfl rfl rfl rfl).2 (.int 5)⟩

/-- Line 46 on a destination that holds no pointer is the generic decoding. -/
theorem unmarshalIface_generic (cur : GoVal) (raw : JSON) (hptr : ∀ e t, cur ≠ .ptr e t)
    (hnum : numbersFit raw = true) : unmarshalIface cur raw = decodeGeneric raw := by
  cases cur <;> cases raw <;> simp_all [unmarshalIface, decodeGeneric, numbersFit]

/-- C4, against the claim as written: the well-formed body `{"result": 1e999}`
carries a result payload, and with no hint `UnmarshalJSON` returns an error and
sets no result; and on a destination whose `Result` still points to an integer,
`{"result": 42}` is decoded through that pointer, not into the generic number. -/
theorem UnmarshalJSON_unhinted_out_of_range :
    emptyResponse.UnmarshalJSON hugeBody =
      .done emptyResponse (some (.unmarshalType "number" "float64")) ∧
    reusedResponse.UnmarshalJSON resultBody =
      .done { Result := .ptr .int (.int 42), ResultType := none, Error := none } none ∧
    (decodeGeneric (.num (.int 42))).1 = .float64 (.int 42) := ⟨rfl, rfl, rfl⟩

/-- C4, amended: without a hint, on a destination whose `Result` holds no pointer, a
body that line 38 accepts and whose result payload is there with every number in
it inside the range of a float makes `UnmarshalJSON` succeed; `Result` is the
generic decoding of the payload and `Error` the error member of the body. -/
theorem UnmarshalJSON_unhinted (r : Response) (b : Bytes) (raw : JSON)
    (hhint : r.ResultType = none) (hptr : ∀ e t, r.Result ≠ .ptr e t)
    (hok : (unmarshalEnvelope b).2 = none)
    (hraw : (unmarshalEnvelope b).1.Result = some raw) (hnum : numbersFit raw = true) :
    r.UnmarshalJSON b = .done
      { Result := (decodeGeneric raw).1, ResultType := none,
        Error := (unmarshalEnvelope b).1.Error } none := by
  have hg := unmarshalIface_generic r.Result raw hptr hnum
  have hd := (decodeGeneric_ok raw).2 hnum
  rcases hu : unmarshalEnvelope b with ⟨i, e⟩
  rw [hu] at hok hraw
  simp only at hok hraw
  subst hok
  simp [Response.UnmarshalJSON, hu, hhint, hraw, hg, hd]

/-- The body `{"result": 42}` without a hint gives the generic number 42. -/
theorem UnmarshalJSON_unhinted_witness :
    emptyResponse.UnmarshalJSON resultBody = .done
      { Result := .float64 (.int 42), ResultType := none, Error := none } none :=
  UnmarshalJSON_unhinted emptyResponse resultBody (.num (.int 42)) rfl
    (fun _ _ h => by cases h) rfl rfl rfl

/-! ## Decode errors -/

/-- The members of the top-level object decode without error exactly when the
error members among them have the shape of an `Error`. -/
theorem envelopeMembers_ok (ms : List (String × JSON)) (i : Envelope) :
    (envelopeMembers ms i).2 = none ↔ errorMembersFit ms = true := by
  induction ms generalizing i with
  | nil => simp [envelopeMembers, errorMembersFit]
  | cons m ms ih =>
    obtain ⟨k, j⟩ := m
    simp only [envelopeMembers, errorMembersFit, firstErr_eq_none, ih, envelopeMember,
      Bool.and_eq_true]
    cases hf : findField ["Result", "Error"] k with
    | none => simp
    | some name =>
      by_cases hn : name = "Result"
      · cases j <;> simp [hn]
      · cases j <;> simp [hn, decodeInto_ok, fits]

/-- Line 38 fails on bytes that are not JSON and on JSON that is neither null nor
of the shape of the envelope, and on nothing else. -/
theorem unmarshalEnvelope_ok (b : Bytes) :
    (unmarshalEnvelope b).2 = none ↔
      ∃ j, b.tree = some j ∧ (j = .null ∨ envelopeShaped j = true) := by
  unfold unmarshalEnvelope
  cases ht : b.tree with
  | none => simp
  | some j => cases j <;> simp [envelopeShaped, envelopeMembers_ok]

/-- C9, against the claim as written: the body `null` is not a JSON object, and
`UnmarshalJSON` returns no decode error for it: line 38 accepts it and the call
ends in a panic. -/
theorem UnmarshalJSON_null_body_no_error :
    emptyResponse.UnmarshalJSON nullBody = .panic "reflect: New(nil)" ∧
    intResponse.UnmarshalJSON nullBody =
      .panic "invalid memory address or nil pointer dereference" := ⟨rfl, rfl⟩

/-- C9, amended: `UnmarshalJSON` returns a decode error, and leaves the destination
as it was, for bytes that are not JSON and for JSON that is neither null nor of
the shape of the envelope; with a hint it returns a decode error for every body of
that shape whose result payload is there and does not match the shape of the
hint. -/
theorem UnmarshalJSON_decode_error (r : Response) (b : Bytes) :
    (b.tree = none → r.UnmarshalJSON b = .done r (some .syntaxError)) ∧
    (∀ j, b.tree = some j → j ≠ .null → envelopeShaped j = false →
      ∃ e, r.UnmarshalJSON b = .done r (some e)) ∧
    (∀ hint raw, r.ResultType = some hint → (unmarshalEnvelope b).2 = none →
      (unmarshalEnvelope b).1.Result = some raw → fits hint.type raw = false →
      ∃ e, r.UnmarshalJSON b =
        .done { r with Error := (unmarshalEnvelope b).1.Error } (some e)) := by
  refine ⟨fun ht => ?_, fun j ht hnull hshape => ?_, fun hint raw hhint hok hraw hfits => ?_⟩
  · simp [Response.UnmarshalJSON, unmarshalEnvelope, ht]
  · cases he : (unmarshalEnvelope b).2 with
    | none =>
      obtain ⟨j1, hj1, hcase⟩ := (unmarshalEnvelope_ok b).1 he
      rw [ht] at hj1
      cases hj1
      rcases hcase with h | h
      · exact absurd h hnull
      · rw [h] at hshape
        cases hshape
    | some e =>
      refine ⟨e, ?_⟩
      rcases hu : unmarshalEnvelope b with ⟨i, e1⟩
      rw [hu] at he
      simp only at he
      subst he
      simp [Response.UnmarshalJSON, hu]
  · cases hd : (decodeInto hint.type (zero hint.type) raw).2 with
    | none =>
      rw [(decodeInto_ok _ _ _).1 hd] at hfits
      cases hfits
    | some e =>
      refine ⟨e, ?_⟩
      rcases hu : unmarshalEnvelope b with ⟨i, e1⟩
      rw [hu] at hok hraw
      simp only at hok hraw
      subst hok
      simp [Response.UnmarshalJSON, hu, hhint, hraw, hd]

/-- Broken bytes, an array, an error member that is a string, and a string where
the hint asks for an integer. -/
theorem UnmarshalJSON_decode_error_witness :
    emptyResponse.UnmarshalJSON brokenBody = .done emptyResponse (some .syntaxError) ∧
    (∃ e, emptyResponse.UnmarshalJSON arrayBody = .done emptyResponse (some e)) ∧
    (∃ e, emptyResponse.UnmarshalJSON badErrorBody = .done emptyResponse (some e)) ∧
    (∃ e, intResponse.UnmarshalJSON textBody =
      .done { intResponse with Error := (unmarshalEnvelope textBody).1.Error } (some e)) :=
  ⟨(UnmarshalJSON_decode_error emptyResponse brokenBody).1 rfl,
   (UnmarshalJSON_decode_error emptyResponse arrayBody).2.1 _ rfl (fun h => by cases h) rfl,
   (UnmarshalJSON_decode_error emptyResponse badErrorBody).2.1 _ rfl (fun h => by cases h) rfl,
   (UnmarshalJSON_decode_error intResponse textBody).2.2 _ (.str "forty-two") rfl rfl rfl rfl⟩

/-! ## What a failed decode leaves behind -/

/-- C10, against the claim as written: without a hint the body `{"result": [1e999]}`
makes `UnmarshalJSON` return an error, and `Result`, nil before the call, holds a
slice afterwards. -/
theorem UnmarshalJSON_error_changes_result :
    emptyResponse.UnmarshalJSON hugeItemBody =
      .done { Result := .slice [.nil], ResultType := none, Error := none }
        (some (.unmarshalType "number" "float64")) ∧
    emptyResponse.Result = .nil := ⟨rfl, rfl⟩

/-- C10, amended: when `UnmarshalJSON` returns an error, `ResultType` is what it was;
if line 38 failed, the whole destination is what it was; if line 38 succeeded,
`Error` has been replaced by the error member of the body, and with a hint
`Result` is what it was. -/
theorem UnmarshalJSON_error_state (r r1 : Response) (b : Bytes) (e : GoError)
    (h : r.UnmarshalJSON b = .done r1 (some e)) :
    r1.ResultType = r.ResultType ∧
    ((unmarshalEnvelope b).2 ≠ none → r1 = r) ∧
    ((unmarshalEnvelope b).2 = none →
      r1.Error = (unmarshalEnvelope b).1.Error ∧ (r.ResultType ≠ none → r1.Result = r.Result)) := by
  unfold Response.UnmarshalJSON at h
  rcases hu : unmarshalEnvelope b with ⟨i, e1⟩
  rw [hu] at h
  cases e1 with
  | some err =>
    simp only [Run.done.injEq] at h
    obtain ⟨h1, -⟩ := h
    subst h1
    simp
  | none =>
    simp only at h
    cases ht : r.ResultType with
    | none =>
      cases hr : i.Result with
      | none => simp [ht, hr] at h
      | some raw =>
        simp only [ht, hr, Run.done.injEq] at h
        obtain ⟨h1, -⟩ := h
        subst h1
        simp
    | some hint =>
      cases hr : i.Result with
      | none => simp [ht, hr] at h
      | some raw =>
        simp only [ht, hr] at h
        cases hd : (decodeInto hint.type (zero hint.type) raw).2 with
        | none => simp [hd] at h
        | some err =>
          simp only [hd, Run.done.injEq] at h
          obtain ⟨h1, -⟩ := h
          subst h1
          simp

/-- A string where the hint asks for an integer, next to an error member: the
error is stored, the result is not; and broken bytes. -/
theorem UnmarshalJSON_error_state_witness :
    (∃ r1 e, intResponse.UnmarshalJSON mixedBody = .done r1 (some e) ∧
      r1.ResultType = intResponse.ResultType ∧ r1.Result = intResponse.Result ∧
      r1.Error = some { Code := 7, Message := "boom" }) ∧
    (∃ r1 e, intResponse.UnmarshalJSON brokenBody = .done r1 (some e) ∧ r1 = intResponse) :=
  ⟨⟨_, _, rfl, (UnmarshalJSON_error_state intResponse _ mixedBody _ rfl).1,
      ((UnmarshalJSON_error_state intResponse _ mixedBody _ rfl).2.2 rfl).2 (by simp [intResponse]),
      ((UnmarshalJSON_error_state intResponse _ mixedBody _ rfl).2.2 rfl).1⟩,
   ⟨_, _, rfl, (UnmarshalJSON_error_state intResponse _ brokenBody _ rfl).2.1 (by decide)⟩⟩

/-! ## The round trip of a request -/

theorem runesLess_asymm (a b : List Char) (h : runesLess a b = true) : runesLess b a = false := by
  induction a generalizing b with
  | nil => cases b <;> simp_all [runesLess]
  | cons c cs ih =>
    cases b with
    | nil => simp [runesLess] at h
    | cons d ds =>
      simp only [runesLess, Bool.or_eq_true, decide_eq_true_eq, Bool.and_eq_true, beq_iff_eq] at h
      simp only [runesLess, Bool.or_eq_false_iff, decide_eq_false_iff_not, Bool.and_eq_false_iff,
        Nat.not_lt]
      rcases h with h | ⟨h1, h2⟩
      · refine ⟨Nat.le_of_lt h, Or.inl ?_⟩
        rw [beq_eq_false_iff_ne]
        intro hdc
        subst hdc
        exact Nat.lt_irrefl _ h
      · subst h1
        exact ⟨Nat.le_refl _, Or.inr (ih ds h2)⟩

theorem keyLess_asymm (a b : String) (h : keyLess a b = true) : keyLess b a = false :=
  runesLess_asymm _ _ h

theorem keyLess_ne (a b : String) (h : keyLess a b = true) : b ≠ a := by
  intro hab
  subst hab
  have := keyLess_asymm _ _ h
  rw [h] at this
  cases this

theorem sortMembers_ascending (ms : List (String × JSON))
    (h : ascending (ms.map Prod.fst) = true) : sortMembers ms = ms := by
  induction ms with
  | nil => rfl
  | cons m ms ih =>
    simp only [List.map_cons, ascending, Bool.and_eq_true, List.all_eq_true] at h
    rw [sortMembers, ih h.2]
    cases ms with
    | nil => rfl
    | cons n rest =>
      have hlt : keyLess m.1 n.1 = true := h.1 n.1 (by simp)
      simp [insertMember, keyLess_asymm _ _ hlt]

theorem mapSet_above (k : String) (v : GoVal) (acc : List (String × GoVal))
    (h : ∀ x ∈ acc, keyLess x.1 k = true) : mapSet k v acc = acc ++ [(k, v)] := by
  induction acc with
  | nil => rfl
  | cons a acc ih =>
    obtain ⟨k1, v1⟩ := a
    have h1 : keyLess k1 k = true := h (k1, v1) (by simp)
    have hne : k ≠ k1 := keyLess_ne _ _ h1
    simp [mapSet, hne, keyLess_asymm _ _ h1, ih (fun x hx => h x (by simp [hx]))]

mutual
theorem marshal_generic (v : GoVal) (h : isGeneric v = true) :
    ∃ j, marshal v = some j ∧ decodeGeneric j = (v, none) := by
  cases v with
  | nil => exact ⟨.null, rfl, rfl⟩
  | bool b => exact ⟨.bool b, rfl, rfl⟩
  | float64 x =>
    simp only [isGeneric] at h
    exact ⟨.num x, by simp [marshal, h], by simp [decodeGeneric, h]⟩
  | str s => exact ⟨.str s, rfl, rfl⟩
  | slice items =>
    simp only [isGeneric] at h
    obtain ⟨js, h1, h2⟩ := marshalItems_generic items h
    exact ⟨.arr js, by simp [marshal, h1], by simp [decodeGeneric, h2]⟩
  | map entries =>
    simp only [isGeneric, Bool.and_eq_true] at h
    obtain ⟨ms, h1, h2, h3⟩ := marshalEntries_generic entries [] h.1 h.2 (by simp)
    refine ⟨.obj ms, ?_, ?_⟩
    · have hs : sortMembers ms = ms := sortMembers_ascending ms (by rw [h2]; exact h.2)
      simp [marshal, h1, hs]
    · simp [decodeGeneric, h3]
  | int n => simp [isGeneric] at h
  | struct fields => simp [isGeneric] at h
  | ptr e t => simp [isGeneric] at h
  | chan => simp [isGeneric] at h
  | typedNil => simp [isGeneric] at h
  | rawStr bytes => simp [isGeneric] at h
  | rawMap entries => simp [isGeneric] at h
theorem marshalItems_generic (vs : List GoVal) (h : isGenericItems vs = true) :
    ∃ js, marshalItems vs = some js ∧ decodeGenericItems js = (vs, none) := by
  cases vs with
  | nil => exact ⟨[], rfl, rfl⟩
  | cons v vs =>
    simp only [isGenericItems, Bool.and_eq_true] at h
    obtain ⟨j, h1, h2⟩ := marshal_generic v h.1
    obtain ⟨js, h3, h4⟩ := marshalItems_generic vs h.2
    exact ⟨j :: js, by simp [marshalItems, h1, h3], by simp [decodeGenericItems, h2, h4, firstErr]⟩
theorem marshalEntries_generic (es : List (String × GoVal)) (acc : List (String × GoVal))
    (h : isGenericEntries es = true) (hasc : ascending (es.map Prod.fst) = true)
    (hacc : ∀ x ∈ acc, ∀ y ∈ es, keyLess x.1 y.1 = true) :
    ∃ ms, marshalEntries es = some ms ∧ ms.map Prod.fst = es.map Prod.fst ∧
      decodeGenericMembers ms acc = (acc ++ es, none) := by
  cases es with
  | nil => exact ⟨[], rfl, rfl, by simp [decodeGenericMembers]⟩
  | cons e es =>
    obtain ⟨k, v⟩ := e
    simp only [isGenericEntries, Bool.and_eq_true] at h
    simp only [List.map_cons, ascending, Bool.and_eq_true, List.all_eq_true] at hasc
    obtain ⟨j, h1, h2⟩ := marshal_generic v h.1
    have hset : mapSet k v acc = acc ++ [(k, v)] :=
      mapSet_above k v acc (fun x hx => hacc x hx (k, v) (by simp))
    obtain ⟨ms, h3, h4, h5⟩ := marshalEntries_generic es (acc ++ [(k, v)]) h.2 hasc.2 (by
      intro x hx y hy
      rcases List.mem_append.1 hx with hx | hx
      · exact hacc x hx y (by simp [hy])
      · have : x = (k, v) := by simpa using hx
        subst this
        exact hasc.1 y.1 (List.mem_map_of_mem Prod.fst hy))
    refine ⟨(k, j) :: ms, by simp [marshalEntries, h1, h3], by simp [h4], ?_⟩
    simp [decodeGenericMembers, h2, hset, h5, firstErr]
end

theorem decodeInto_iface (cur : GoVal) (j : JSON) (v : GoVal)
    (h : decodeGeneric j = (v, none)) : decodeInto .iface cur j = (v, none) := by
  cases j with
  | num n => cases hn : n.fitsFloat64 <;> simp_all [decodeInto, decodeGeneric]
  | _ => simpa [decodeInto, decodeGeneric] using h

/-- C8, against the claim as written: a request whose parameter is the Go `int` 5
comes back with the `float64` 5 as its parameter, and a request whose method name
is the bytes `a`, 0xFF, `b` comes back with the method name `a`, U+FFFD, `b`. -/
theorem request_round_trip_int_param :
    (∃ j, marshalRequest intRequest = .ok j ∧ (unmarshalRequest j).2 = none ∧
      (unmarshalRequest j).1.Params = .float64 (.int 5) ∧
      (unmarshalRequest j).1.Params ≠ intRequest.Params) ∧
    (∃ j, marshalRequest rawMethodRequest = .ok j ∧ (unmarshalRequest j).2 = none ∧
      (unmarshalRequest j).1.Method = .text (String.mk ['a', Char.ofNat 0xFFFD, 'b']) ∧
      (unmarshalRequest j).1.Method ≠ rawMethodRequest.Method) :=
  ⟨⟨_, rfl, rfl, rfl, fun h => by cases h⟩, ⟨_, rfl, rfl, rfl, fun h => by cases h⟩⟩

/-- C8, amended: a request whose method name and version tag are valid UTF-8 (the
tag may be empty, and is then left out), whose id an `int` holds and whose
parameter is absent or a generic value with strings and keys of valid UTF-8 is
serialised, and deserialising what was written gives the request back. -/
theorem request_round_trip (obj : Request) (version method : String)
    (hversion : obj.JsonRPC = .text version) (hmethod : obj.Method = .text method)
    (hparams : isGeneric obj.Params = true)
    (hid : -(2 : Int) ^ 63 ≤ obj.Id ∧ obj.Id < (2 : Int) ^ 63) :
    ∃ j, marshalRequest obj = .ok j ∧ unmarshalRequest j = (obj, none) := by
  obtain ⟨p, hp1, hp2⟩ := marshal_generic obj.Params hparams
  have hp3 := fun cur => decodeInto_iface cur p obj.Params hp2
  have hidv : (JNum.int obj.Id).asInt64 = some obj.Id := by
    simp only [JNum.asInt64]
    rw [if_pos hid]
  obtain ⟨v, m, ps, id⟩ := obj
  simp only at hversion hmethod
  subst hversion hmethod
  by_cases hv : version = ""
  · refine ⟨_, by simp only [marshalRequest, hp1]; rfl, ?_⟩
    simp at hp3 hidv
    simp [hv, GoString.isEmpty, GoString.toValidUTF8, unmarshalRequest, requestShape,
      decodeInto, decodeMembers, findField, foldName, foldRune, fieldShape, getField, setField,
      zero, zeroFields, firstErr, hp3, hidv, Request.ofGo]
  · refine ⟨_, by simp only [marshalRequest, hp1]; rfl, ?_⟩
    simp at hp3 hidv
    simp [hv, GoString.isEmpty, GoString.toValidUTF8, unmarshalRequest, requestShape,
      decodeInto, decodeMembers, findField, foldName, foldRune, fieldShape, getField, setField,
      zero, zeroFields, firstErr, hp3, hidv, Request.ofGo]

/-- A request with an array of generic values, one without parameters, and one
with an empty version tag and non-ASCII text. -/
theorem request_round_trip_witness :
    (∃ j, marshalRequest genericRequest = .ok j ∧ unmarshalRequest j = (genericRequest, none)) ∧
    (∃ j, marshalRequest pingRequest = .ok j ∧ unmarshalRequest j = (pingRequest, none)) ∧
    (∃ j, marshalRequest textRequest = .ok j ∧ unmarshalRequest j = (textRequest, none)) :=
  ⟨request_round_trip genericRequest _ _ rfl rfl rfl (by decide),
   request_round_trip pingRequest _ _ rfl rfl rfl (by decide),
   request_round_trip textRequest _ _ rfl rfl rfl (by decide)⟩

end rpc
